import Mathlib

/-!
Shallow embedding of `src/lib.rs` of the `gramaire` crate: a hand-written
parser turning one "spell" string into a structured `Spell` value.

Rust strings are modelled as `List Char`.  All of the parser's slicing
offsets (`find("__")`, `find('}')`, `find([':','='])`, `find(':')`,
`find('=')`, `find(')')`) are byte offsets of ASCII (single-byte)
characters, hence always char-aligned, so slices are modelled with
char-index `take`/`drop`.  The one place where the source uses a byte
offset as a *character* index — `spell.chars().nth(effect_start + i)` in
the effect scan — is modelled explicitly via `byteOff`, which converts a
char index to the UTF-8 byte offset of that character.  Rust `panic!`
(the two `unreachable!` arms and the `unwrap` in the component-start
computation) is modelled by a dedicated `panicked` result.
-/

/-- A Rust `&str` / `String`, as its sequence of Unicode scalar values. -/
abbrev RStr := List Char

/-- UTF-8 byte offset of the character at char index `n` of `s`
(total: clamps at the total byte length when `n` exceeds `s.length`). -/
def byteOff (s : RStr) (n : Nat) : Nat :=
  ((s.take n).map Char.utf8Size).sum

/-- Char index of the first occurrence of the two-character substring
`"__"` (Rust `spell.find("__")`, whose byte result is always char-aligned
because `'_'` is ASCII and UTF-8 continuation bytes are ≥ 0x80). -/
def findUU : RStr → Option Nat
  | [] => none
  | c :: cs =>
    if c = '_' ∧ cs.head? = some '_' then some 0
    else (findUU cs).map (· + 1)

/-- Models Rust `char::is_alphanumeric`, restricted to the ASCII range
(the full Unicode `Alphabetic`/`Nd`/`Nl`/`No` tables are not embedded;
every claim using this classifier is stated relative to it). -/
def rustIsAlphanumeric (c : Char) : Bool :=
  c.isAlphanum

/-- `enum SpellBreakpoint` (lib.rs lines 33-40). -/
inductive SpellBreakpoint : Type where
  | Small
  | Medium
  | Large
  | XLarge
  | XXLarge
deriving DecidableEq, Repr

/-- `impl FromStr for SpellBreakpoint` (lib.rs lines 42-55): exact match
against the five literal keywords, any other text is an error. -/
def SpellBreakpoint.from_str (bp : RStr) : Except String SpellBreakpoint :=
  if bp = ['s', 'm'] then .ok .Small
  else if bp = ['m', 'd'] then .ok .Medium
  else if bp = ['l', 'g'] then .ok .Large
  else if bp = ['x', 'l'] then .ok .XLarge
  else if bp = ['x', 'x', 'l'] then .ok .XXLarge
  else .error "invalid breakpoint for area"

/-- `enum SpellArea` (lib.rs lines 12-16). -/
inductive SpellArea : Type where
  | Breakpoint (bp : SpellBreakpoint)
  | MediaQuery (s : RStr)
deriving DecidableEq, Repr

/-- `impl FromStr for SpellArea` (lib.rs lines 18-31): empty input is an
error; a leading `'('` demands a `')'` and yields the text strictly
between (`&area[1..i]`); anything else is delegated to
`SpellBreakpoint.from_str`. -/
def SpellArea.from_str (area : RStr) : Except String SpellArea :=
  match area.head? with
  | some '(' =>
    match List.findIdx? (· = ')') area with
    | some i => .ok (.MediaQuery ((area.take i).drop 1))
    | none => .error "missing ')' in spell area"
  | none => .error "spell not long enough"
  | some _ => (SpellBreakpoint.from_str area).map .Breakpoint

/-- `enum SpellTarget` (lib.rs lines 57-61). -/
inductive SpellTarget : Type where
  | CSSValue (s : RStr)
  | Variables (vs : List RStr)
deriving DecidableEq, Repr

/-- `impl FromStr for SpellTarget` (lib.rs lines 63-76): the target is
`Variables` iff it contains a `'_'` and every character is alphanumeric
or `'_'`; otherwise it is the verbatim `CSSValue`.  `Variables` splits on
`'_'` (Rust `split('_')`, which keeps empty tokens), with a defensive
error if the split were empty. -/
def SpellTarget.from_str (target : RStr) : Except String SpellTarget :=
  let is_variables :=
    target.any (· = '_') && target.all (fun c => rustIsAlphanumeric c || c = '_')
  if !is_variables then .ok (.CSSValue target)
  else
    let vars := target.splitOn '_'
    if vars.isEmpty then .error "empty target!"
    else .ok (.Variables vars)

/-- `struct Spell` (lib.rs lines 3-10). -/
structure Spell : Type where
  area : Option SpellArea
  focus : Option RStr
  effect : Option (List RStr)
  component : RStr
  target : SpellTarget
deriving DecidableEq, Repr

/-- Outcome of a fallible Rust computation that can also `panic!`. -/
inductive POr (α : Type) : Type where
  | ok (a : α)
  | panicked (msg : String)
deriving DecidableEq, Repr

/-- Result of `Spell::from_str`: success, a parse error, or a panic. -/
inductive SpellResult : Type where
  | ok (s : Spell)
  | err (e : String)
  | panicked (msg : String)
deriving DecidableEq, Repr

/-- The delimiter set `[':', '=']` of the effect scan. -/
def isEffectDelim (c : Char) : Bool :=
  c = ':' || c = '='

/-- The effect scan (lib.rs lines 110-122).  `effect_start` is a char
index; the source finds the first `':'`/`'='` at *byte* offset
`effect_start + i` and then reads `spell.chars().nth(effect_start + i)` —
a *char* index built from byte offsets, reproduced here via `byteOff`.
On all-ASCII input the two agree; otherwise the `unreachable!` arms
(modelled as `panicked`) can be reached. -/
def effectScan (spell : RStr) (effect_start : Nat) : POr (Option (List RStr)) :=
  let rest := spell.drop effect_start
  match List.findIdx? isEffectDelim rest with
  | some j =>
    match spell[byteOff spell effect_start + byteOff rest j]? with
    | none => .panicked "spell is shorter than itself"
    | some c =>
      if c = '=' then .ok none
      else if c = ':' then .ok (some ((rest.take j).splitOn ','))
      else .panicked "impossible to match character"
  | none => .ok none

/-- The component-start computation (lib.rs lines 124-130).  With an
effect, re-find the first `':'` after `effect_start` (`unwrap` panics if
there is none); otherwise resume right after the focus, or at
`focus_start` when there was no focus. -/
def componentStart (spell : RStr) (effect : Option (List RStr)) (focus : Option RStr)
    (focus_start focus_len effect_start : Nat) : POr Nat :=
  match effect with
  | some _ =>
    match List.findIdx? (· = ':') (spell.drop effect_start) with
    | some k => .ok (effect_start + k + 1)
    | none => .panicked "called Option::unwrap() on a None value"
  | none =>
    match focus with
    | some _ => .ok (focus_start + focus_len + 1)
    | none => .ok focus_start

/-- `Spell::from_str` after the focus scan (lib.rs lines 101-147):
given the optional char-length of the focus block (`focus_len?`,
the index of the `'}'` inside `spell.drop focus_start` when a focus was
found), build the focus text, run the effect scan, locate the component
start, require an `'='`, and parse the target. -/
def Spell.afterFocus (spell : RStr) (area : Option SpellArea) (focus_start : Nat)
    (focus_len? : Option Nat) : SpellResult :=
  let focus : Option RStr := focus_len?.map fun i => ((spell.drop focus_start).take i).drop 1
  let focus_len := focus_len?.getD 0
  let effect_start := focus_start + focus_len + (if focus_len ≠ 0 then 1 else 0)
  match effectScan spell effect_start with
  | .panicked m => .panicked m
  | .ok effect =>
    match componentStart spell effect focus focus_start focus_len effect_start with
    | .panicked m => .panicked m
    | .ok component_start =>
      match List.findIdx? (· = '=') (spell.drop component_start) with
      | none => .err "expected '=' after component but could not find one"
      | some m =>
        match SpellTarget.from_str ((spell.drop component_start).drop (m + 1)) with
        | .error e => .err e
        | .ok target =>
          .ok ⟨area, focus, effect, (spell.drop component_start).take m, target⟩

/-- `Spell::from_str` after the area (lib.rs lines 92-99): look at the
first character at `focus_start`; empty remainder is an error, `'{'`
demands a `'}'` (whose index becomes the focus length), anything else
means no focus. -/
def Spell.afterArea (spell : RStr) (area : Option SpellArea) (focus_start : Nat) : SpellResult :=
  match (spell.drop focus_start).head? with
  | none => .err "spell ends too early while looking for focus"
  | some c0 =>
    if c0 = '{' then
      match List.findIdx? (· = '}') (spell.drop focus_start) with
      | some i => Spell.afterFocus spell area focus_start (some i)
      | none => .err "spell ends without closing focus"
    else Spell.afterFocus spell area focus_start none

/-- `impl FromStr for Spell`, entry point (lib.rs lines 78-91): the text
before the first `"__"` (anywhere in the input) is parsed as the area,
and the rest of the parse resumes two characters past it; with no `"__"`
there is no area and parsing starts at offset 0. -/
def Spell.from_str (spell : RStr) : SpellResult :=
  match findUU spell with
  | some i =>
    match SpellArea.from_str (spell.take i) with
    | .error e => .err e
    | .ok a => Spell.afterArea spell (some a) (i + 2)
  | none => Spell.afterArea spell none 0

/-! Stage observables: the offsets and stage successes of one parse,
recomputed as total functions so that claims about "the component-start
offset" or "the focus/effect offset" can be stated directly. -/

/-- The char offset where focus/effect detection starts (lib.rs lines
88-91): two characters past the first `"__"`, or 0 when there is none. -/
def focusStartOf (spell : RStr) : Nat :=
  match findUU spell with
  | some i => i + 2
  | none => 0

/-- Whether the area stage succeeds (vacuously true when no `"__"`). -/
def areaOk (spell : RStr) : Bool :=
  match findUU spell with
  | some i =>
    match SpellArea.from_str (spell.take i) with
    | .ok _ => true
    | .error _ => false
  | none => true

/-- The component-start offset of lib.rs lines 124-130, given the focus
scan's outcome; `none` when the effect scan or the `unwrap` panics. -/
def componentStartAfterFocus (spell : RStr) (focus_start : Nat) (focus_len? : Option Nat) :
    Option Nat :=
  let focus : Option RStr := focus_len?.map fun i => ((spell.drop focus_start).take i).drop 1
  let focus_len := focus_len?.getD 0
  let effect_start := focus_start + focus_len + (if focus_len ≠ 0 then 1 else 0)
  match effectScan spell effect_start with
  | .panicked _ => none
  | .ok effect =>
    match componentStart spell effect focus focus_start focus_len effect_start with
    | .panicked _ => none
    | .ok cs => some cs

/-- The component-start offset after the focus scan at `focus_start`;
`none` when the focus scan fails or a later stage panics. -/
def componentStartAux (spell : RStr) (focus_start : Nat) : Option Nat :=
  match (spell.drop focus_start).head? with
  | none => none
  | some c0 =>
    if c0 = '{' then
      match List.findIdx? (· = '}') (spell.drop focus_start) with
      | some i => componentStartAfterFocus spell focus_start (some i)
      | none => none
    else componentStartAfterFocus spell focus_start none

/-- The component-start offset of a whole parse; `none` when any stage
before it fails or panics. -/
def componentStartOf (spell : RStr) : Option Nat :=
  if areaOk spell then componentStartAux spell (focusStartOf spell) else none

/-! Sanity checks mirroring the crate's own `#[cfg(test)]` suite. -/

/-- lib.rs test `simple_spell`. -/
theorem test_simple_spell :
    Spell.from_str ("border-radius=8px".toList) =
      .ok ⟨none, none, none, "border-radius".toList, .CSSValue ("8px".toList)⟩ := by
  decide

/-- lib.rs test `spell_with_area`. -/
theorem test_spell_with_area :
    Spell.from_str ("(width>=768px)__br=0.375rem".toList) =
      .ok ⟨some (.MediaQuery ("width>=768px".toList)), none, none, "br".toList,
        .CSSValue ("0.375rem".toList)⟩ := by
  decide

/-- lib.rs test `spell_with_focus`. -/
theorem test_spell_with_focus :
    Spell.from_str ("{[hidden]_>_p:hover:active}color=red".toList) =
      .ok ⟨none, some ("[hidden]_>_p:hover:active".toList), none, "color".toList,
        .CSSValue ("red".toList)⟩ := by
  decide

/-- lib.rs test `spell_with_effect`. -/
theorem test_spell_with_effect :
    Spell.from_str ("hover,active:background-color=darkgrey".toList) =
      .ok ⟨none, none, some ["hover".toList, "active".toList], "background-color".toList,
        .CSSValue ("darkgrey".toList)⟩ := by
  decide

/-- lib.rs test `spell_with_variables`. -/
theorem test_spell_with_variables :
    Spell.from_str ("btn=8px_lightgrey_grey_darkgrey".toList) =
      .ok ⟨none, none, none, "btn".toList,
        .Variables ["8px".toList, "lightgrey".toList, "grey".toList, "darkgrey".toList]⟩ := by
  decide

/-- lib.rs test `complex_spell_area_focus`. -/
theorem test_complex_spell_area_focus :
    Spell.from_str ("md__{[hidden]_>_p:hover:active}color=red".toList) =
      .ok ⟨some (.Breakpoint .Medium), some ("[hidden]_>_p:hover:active".toList), none,
        "color".toList, .CSSValue ("red".toList)⟩ := by
  decide

/-- lib.rs test `complex_spell_area_effect`. -/
theorem test_complex_spell_area_effect :
    Spell.from_str ("md__hover,active:color=red".toList) =
      .ok ⟨some (.Breakpoint .Medium), none, some ["hover".toList, "active".toList],
        "color".toList, .CSSValue ("red".toList)⟩ := by
  decide

/-- lib.rs test `complex_spell_area_focus_effect`: the parse carries a
focus AND an effect at the same time. -/
theorem test_complex_spell_area_focus_effect :
    Spell.from_str ("md__{_>_p}hover:display=none".toList) =
      .ok ⟨some (.Breakpoint .Medium), some ("_>_p".toList), some ["hover".toList],
        "display".toList, .CSSValue ("none".toList)⟩ := by
  decide


/-- Inversion for `Spell.afterFocus`: a successful parse determines every
field of the result from the stage functions. -/
theorem afterFocus_ok_inv (spell : RStr) (ar : Option SpellArea) (fs : Nat)
    (fl? : Option Nat) (s : Spell)
    (h : Spell.afterFocus spell ar fs fl? = .ok s) :
    s.area = ar ∧
    s.focus = fl?.map (fun i => ((spell.drop fs).take i).drop 1) ∧
    effectScan spell (fs + fl?.getD 0 + (if fl?.getD 0 ≠ 0 then 1 else 0)) = .ok s.effect ∧
    ∃ cs m,
      componentStart spell s.effect s.focus fs (fl?.getD 0)
        (fs + fl?.getD 0 + (if fl?.getD 0 ≠ 0 then 1 else 0)) = .ok cs ∧
      List.findIdx? (· = '=') (spell.drop cs) = some m ∧
      s.component = (spell.drop cs).take m ∧
      SpellTarget.from_str ((spell.drop cs).drop (m + 1)) = .ok s.target := by
  simp only [Spell.afterFocus] at h
  split at h
  · exact absurd h (by simp)
  next effect heff =>
    split at h
    · exact absurd h (by simp)
    next cs hcs =>
      split at h
      · exact absurd h (by simp)
      next m hm =>
        split at h
        · exact absurd h (by simp)
        next target htgt =>
          cases h
          exact ⟨rfl, rfl, heff, cs, m, hcs, hm, rfl, htgt⟩

/-- No `"__"`: the parse is `afterArea` with no area at offset 0. -/
theorem from_str_no_area (spell : RStr) (hu : findUU spell = none) :
    Spell.from_str spell = Spell.afterArea spell none 0 := by
  simp [Spell.from_str, hu]

/-- Failing area: the parse surfaces the area error unchanged. -/
theorem from_str_area_err (spell : RStr) (i : Nat) (e : String)
    (hu : findUU spell = some i) (he : SpellArea.from_str (spell.take i) = .error e) :
    Spell.from_str spell = .err e := by
  simp [Spell.from_str, hu, he]

/-- Successful area: the parse is `afterArea` two characters past `"__"`. -/
theorem from_str_area_ok (spell : RStr) (i : Nat) (a : SpellArea)
    (hu : findUU spell = some i) (ha : SpellArea.from_str (spell.take i) = .ok a) :
    Spell.from_str spell = Spell.afterArea spell (some a) (i + 2) := by
  simp [Spell.from_str, hu, ha]

/-- A successful area stage makes the parse an `afterArea` at `focusStartOf`. -/
theorem from_str_eq_afterArea (spell : RStr) (harea : areaOk spell = true) :
    ∃ ar, Spell.from_str spell = Spell.afterArea spell ar (focusStartOf spell) := by
  cases hu : findUU spell with
  | none =>
    exact ⟨none, by rw [focusStartOf, hu]; exact from_str_no_area spell hu⟩
  | some i =>
    simp only [areaOk, hu] at harea
    cases ha : SpellArea.from_str (spell.take i) with
    | error e => rw [ha] at harea; simp at harea
    | ok a => exact ⟨some a, by rw [focusStartOf, hu]; exact from_str_area_ok spell i a hu ha⟩

/-- Empty remainder at the focus offset: the dedicated error. -/
theorem afterArea_drop_nil (spell : RStr) (ar : Option SpellArea) (fs : Nat)
    (h : spell.drop fs = []) :
    Spell.afterArea spell ar fs = .err "spell ends too early while looking for focus" := by
  simp [Spell.afterArea, h]

/-- Opening `'{'` with no `'}'`: the dedicated error. -/
theorem afterArea_brace_none (spell : RStr) (ar : Option SpellArea) (fs : Nat) (rest' : RStr)
    (h : spell.drop fs = '{' :: rest')
    (hn : List.findIdx? (· = '}') (spell.drop fs) = none) :
    Spell.afterArea spell ar fs = .err "spell ends without closing focus" := by
  rw [h] at hn
  simp [Spell.afterArea, h, hn]

/-- Opening `'{'` with a `'}'` at index `i`: continue with that focus length. -/
theorem afterArea_brace_some (spell : RStr) (ar : Option SpellArea) (fs : Nat) (rest' : RStr)
    (i : Nat) (h : spell.drop fs = '{' :: rest')
    (hi : List.findIdx? (· = '}') (spell.drop fs) = some i) :
    Spell.afterArea spell ar fs = Spell.afterFocus spell ar fs (some i) := by
  rw [h] at hi
  simp [Spell.afterArea, h, hi]

/-- First character other than `'{'`: continue with no focus. -/
theorem afterArea_nobrace (spell : RStr) (ar : Option SpellArea) (fs : Nat) (c0 : Char)
    (rest' : RStr) (h : spell.drop fs = c0 :: rest') (hc : ¬c0 = '{') :
    Spell.afterArea spell ar fs = Spell.afterFocus spell ar fs none := by
  simp [Spell.afterArea, h, hc]

/-- After the focus scan, a defined component-start offset determines the
rest of the parse: a missing `'='` is the fatal assignment error, and on
success the component is the text strictly before the first `'='`. -/
theorem afterFocus_cs (spell : RStr) (ar : Option SpellArea) (fs : Nat) (fl? : Option Nat)
    (cs : Nat) (h : componentStartAfterFocus spell fs fl? = some cs) :
    (List.findIdx? (· = '=') (spell.drop cs) = none →
       Spell.afterFocus spell ar fs fl? = .err "expected '=' after component but could not find one") ∧
    (∀ m s, List.findIdx? (· = '=') (spell.drop cs) = some m →
       Spell.afterFocus spell ar fs fl? = .ok s → s.component = (spell.drop cs).take m) := by
  simp only [componentStartAfterFocus] at h
  split at h
  · simp at h
  next effect heff =>
    split at h
    · simp at h
    next cs' hcs' =>
      cases h
      constructor
      · intro hnone
        simp only [Spell.afterFocus, heff, hcs', hnone]
      · intro m s hm hok
        simp only [Spell.afterFocus, heff, hcs', hm] at hok
        split at hok
        · exact absurd hok (by simp)
        next target htgt =>
          cases hok
          rfl

/-- Lifting `afterFocus_cs` through the focus scan. -/
theorem afterArea_cs (spell : RStr) (ar : Option SpellArea) (fs : Nat) (cs : Nat)
    (h : componentStartAux spell fs = some cs) :
    (List.findIdx? (· = '=') (spell.drop cs) = none →
       Spell.afterArea spell ar fs = .err "expected '=' after component but could not find one") ∧
    (∀ m s, List.findIdx? (· = '=') (spell.drop cs) = some m →
       Spell.afterArea spell ar fs = .ok s → s.component = (spell.drop cs).take m) := by
  simp only [componentStartAux] at h
  split at h
  · simp at h
  next c0 hhead =>
    obtain ⟨rest', hcons⟩ : ∃ rest', spell.drop fs = c0 :: rest' := by
      cases hd : spell.drop fs with
      | nil => rw [hd] at hhead; simp at hhead
      | cons a t =>
        rw [hd] at hhead
        simp only [List.head?_cons, Option.some.injEq] at hhead
        exact ⟨t, by rw [hhead]⟩
    by_cases hb : c0 = '{'
    · rw [if_pos hb] at h
      split at h
      next i hidx =>
        subst hb
        rw [afterArea_brace_some spell ar fs rest' i hcons hidx]
        exact afterFocus_cs spell ar fs (some i) cs h
      · simp at h
    · rw [if_neg hb] at h
      rw [afterArea_nobrace spell ar fs c0 rest' hcons hb]
      exact afterFocus_cs spell ar fs none cs h

/-- C7: at the focus/effect offset (two past the `"__"`, or 0 with no
`"__"`), given the area stage succeeded: an empty remaining substring
fails with the `UnterminatedSpell` message; a leading `'{'` demands a
later `'}'` — the text strictly between becomes the parse's focus — and
a missing `'}'` fails with the `UnterminatedFocus` message. -/
theorem c7_focus_errors (spell : RStr) (fs : Nat)
    (hfs : fs = focusStartOf spell) (harea : areaOk spell = true) :
    (spell.drop fs = [] →
       Spell.from_str spell = .err "spell ends too early while looking for focus") ∧
    (∀ rest', spell.drop fs = '{' :: rest' →
       (List.findIdx? (· = '}') (spell.drop fs) = none →
          Spell.from_str spell = .err "spell ends without closing focus") ∧
       (∀ i s, List.findIdx? (· = '}') (spell.drop fs) = some i →
          Spell.from_str spell = .ok s →
          s.focus = some (((spell.drop fs).take i).drop 1))) := by
  obtain ⟨ar, key⟩ := from_str_eq_afterArea spell harea
  rw [← hfs] at key
  refine ⟨?_, ?_⟩
  · intro hnil
    rw [key]
    exact afterArea_drop_nil spell ar fs hnil
  · intro rest' hcons
    refine ⟨?_, ?_⟩
    · intro hn
      rw [key]
      exact afterArea_brace_none spell ar fs rest' hcons hn
    · intro i s hi hok
      rw [key, afterArea_brace_some spell ar fs rest' i hcons hi] at hok
      have hinv := afterFocus_ok_inv spell ar fs (some i) s hok
      simpa using hinv.2.1

/-- Witness for `c7_focus_errors` at the inputs `'{' :: "ab"` (unterminated
focus) and `""` (too-early end). -/
theorem c7_focus_errors_witness :
    Spell.from_str ('{' :: "ab".toList) = .err "spell ends without closing focus" ∧
    Spell.from_str ([] : RStr) = .err "spell ends too early while looking for focus" :=
  ⟨((c7_focus_errors ('{' :: "ab".toList) 0 (by decide) (by decide)).2
      ("ab".toList) (by decide)).1 (by decide),
   (c7_focus_errors ([] : RStr) 0 (by decide) (by decide)).1 (by decide)⟩

/-- C8: whenever the parse reaches its component-start offset, a missing
`'='` at or after it is the fatal `MissingAssignment` error — no matter
how much valid area/focus/effect grammar preceded — and when an `'='` is
found the component is exactly the text strictly before the first `'='`
from that offset, with no further validation. -/
theorem c8_missing_assignment (spell : RStr) (cs : Nat)
    (hcs : componentStartOf spell = some cs) :
    (List.findIdx? (· = '=') (spell.drop cs) = none →
       Spell.from_str spell = .err "expected '=' after component but could not find one") ∧
    (∀ m s, List.findIdx? (· = '=') (spell.drop cs) = some m →
       Spell.from_str spell = .ok s → s.component = (spell.drop cs).take m) := by
  simp only [componentStartOf] at hcs
  split at hcs
  case isFalse => simp at hcs
  case isTrue harea =>
    obtain ⟨ar, key⟩ := from_str_eq_afterArea spell harea
    rw [key]
    exact afterArea_cs spell ar (focusStartOf spell) cs hcs

/-- Witness for `c8_missing_assignment`: `"md__{x}hover:color"` has
plenty of valid grammar but no `'='` after the component start, and
`"a=b"` has its component strictly before the `'='`. -/
theorem c8_missing_assignment_witness :
    Spell.from_str ("md__{x}hover:color".toList) =
      .err "expected '=' after component but could not find one" ∧
    ("a=b".toList.drop 0).take 1 = "a".toList :=
  ⟨(c8_missing_assignment ("md__{x}hover:color".toList) 13 (by decide)).1 (by decide),
   (c8_missing_assignment ("a=b".toList) 0 (by decide)).2 1
     ⟨none, none, none, "a".toList, .CSSValue ("b".toList)⟩ (by decide) (by decide)⟩

/-- C1 counterexample: the parse of `"md__{_>_p}hover:display=none"`
succeeds carrying BOTH a focus (`"_>_p"`) and an effect (`["hover"]`),
so a successful parse is not "a single Focus, or a single Effect list,
or absent", and the trailing `hover:` text IS parsed as an effect
(exactly what the crate's own `complex_spell_area_focus_effect` test
asserts). -/
theorem c1_both_focus_and_effect :
    Spell.from_str ("md__{_>_p}hover:display=none".toList) =
      .ok ⟨some (.Breakpoint .Medium), some ("_>_p".toList), some ["hover".toList],
        "display".toList, .CSSValue ("none".toList)⟩ ∧
    (some ("_>_p".toList) : Option RStr).isSome = true ∧
    (some ["hover".toList] : Option (List RStr)).isSome = true := by
  decide

/-- C1 amended: `focus` and `effect` are independent optional fields of
the result and can both be present; whenever
`"md__{_>_p}hover:display=none"` parses successfully its focus is
`"_>_p"` AND its effect is `["hover"]`. -/
theorem c1_focus_effect_not_exclusive :
    ∀ s, Spell.from_str ("md__{_>_p}hover:display=none".toList) = .ok s →
      s.focus = some ("_>_p".toList) ∧ s.effect = some ["hover".toList] := by
  intro s h
  have hfull : Spell.from_str ("md__{_>_p}hover:display=none".toList) =
      .ok ⟨some (.Breakpoint .Medium), some ("_>_p".toList), some ["hover".toList],
        "display".toList, .CSSValue ("none".toList)⟩ := by decide
  rw [hfull] at h
  cases h
  exact ⟨rfl, rfl⟩

/-- Witness for `c1_focus_effect_not_exclusive` at the concrete result. -/
theorem c1_focus_effect_not_exclusive_witness :
    (⟨some (.Breakpoint .Medium), some ("_>_p".toList), some ["hover".toList],
        "display".toList, .CSSValue ("none".toList)⟩ : Spell).focus = some ("_>_p".toList) ∧
    (⟨some (.Breakpoint .Medium), some ("_>_p".toList), some ["hover".toList],
        "display".toList, .CSSValue ("none".toList)⟩ : Spell).effect = some ["hover".toList] :=
  c1_focus_effect_not_exclusive
    ⟨some (.Breakpoint .Medium), some ("_>_p".toList), some ["hover".toList],
      "display".toList, .CSSValue ("none".toList)⟩ (by decide)

/-- C2: the input `"é:x=y"` makes `Spell::from_str` panic.  The scan
finds `':'` at byte offset 2, but `spell.chars().nth(0 + 2)` reads the
character at char index 2, which is `'x'`, falling into the
`unreachable!("impossible to match character {}", c)` arm — the code's
own assertion that the branch cannot be reached is violated. -/
theorem c2_nonascii_panic :
    Spell.from_str ("é:x=y".toList) = .panicked "impossible to match character" := by
  decide

/-- C5: each of the five breakpoint keywords parses in a full spell to
its `Breakpoint` area, and `SpellBreakpoint::from_str` fails with the
`UnknownBreakpoint` error on every other string — exact match,
case-sensitive, no trimming, no synonyms. -/
theorem c5_breakpoints :
    Spell.from_str ("sm__component=value".toList) =
      .ok ⟨some (.Breakpoint .Small), none, none, "component".toList,
        .CSSValue ("value".toList)⟩ ∧
    Spell.from_str ("md__component=value".toList) =
      .ok ⟨some (.Breakpoint .Medium), none, none, "component".toList,
        .CSSValue ("value".toList)⟩ ∧
    Spell.from_str ("lg__component=value".toList) =
      .ok ⟨some (.Breakpoint .Large), none, none, "component".toList,
        .CSSValue ("value".toList)⟩ ∧
    Spell.from_str ("xl__component=value".toList) =
      .ok ⟨some (.Breakpoint .XLarge), none, none, "component".toList,
        .CSSValue ("value".toList)⟩ ∧
    Spell.from_str ("xxl__component=value".toList) =
      .ok ⟨some (.Breakpoint .XXLarge), none, none, "component".toList,
        .CSSValue ("value".toList)⟩ ∧
    (∀ bp : RStr, bp ≠ ['s', 'm'] → bp ≠ ['m', 'd'] → bp ≠ ['l', 'g'] →
       bp ≠ ['x', 'l'] → bp ≠ ['x', 'x', 'l'] →
       SpellBreakpoint.from_str bp = .error "invalid breakpoint for area") := by
  refine ⟨by decide, by decide, by decide, by decide, by decide, ?_⟩
  intro bp h1 h2 h3 h4 h5
  simp [SpellBreakpoint.from_str, h1, h2, h3, h4, h5]

/-- Witness for `c5_breakpoints` at the non-keyword `"Sm"` (wrong case). -/
theorem c5_breakpoints_witness :
    SpellBreakpoint.from_str ['S', 'm'] = .error "invalid breakpoint for area" :=
  c5_breakpoints.2.2.2.2.2 ['S', 'm'] (by decide) (by decide) (by decide) (by decide) (by decide)

/-- C6: `SpellArea::from_str` on the substring before the first `"__"`:
empty input fails with the `MalformedArea` message; a leading `'('`
yields `MediaQuery` of the text strictly between the `'('` and the first
`')'`, or fails with the missing-paren message when no `')'` exists;
anything else is delegated to `SpellBreakpoint::from_str` with its
failure propagated unchanged. -/
theorem c6_area_rules :
    SpellArea.from_str ([] : RStr) = .error "spell not long enough" ∧
    (∀ s : RStr, s.head? = some '(' →
       (∀ i, List.findIdx? (· = ')') s = some i →
          SpellArea.from_str s = .ok (.MediaQuery ((s.take i).drop 1))) ∧
       (List.findIdx? (· = ')') s = none →
          SpellArea.from_str s = .error "missing ')' in spell area")) ∧
    (∀ (c : Char) (t : RStr), ¬c = '(' →
       SpellArea.from_str (c :: t) = (SpellBreakpoint.from_str (c :: t)).map .Breakpoint) := by
  refine ⟨rfl, ?_, ?_⟩
  · intro s hhead
    cases s with
    | nil => simp at hhead
    | cons c t =>
      simp only [List.head?_cons, Option.some.injEq] at hhead
      subst hhead
      constructor
      · intro i hi
        simp [SpellArea.from_str, hi]
      · intro hn
        simp [SpellArea.from_str, hn]
  · intro c t hc
    simp only [SpellArea.from_str, List.head?_cons]

/-- Witness for `c6_area_rules` at `"(w>1px)"` and the non-paren `"zz"`. -/
theorem c6_area_rules_witness :
    SpellArea.from_str ("(w>1px)".toList) = .ok (.MediaQuery ("w>1px".toList)) ∧
    SpellArea.from_str ('z' :: "z".toList) =
      (SpellBreakpoint.from_str ('z' :: "z".toList)).map .Breakpoint :=
  ⟨by
    have := (c6_area_rules.2.1 ("(w>1px)".toList) (by decide)).1 6 (by decide)
    simpa using this,
   c6_area_rules.2.2 'z' ("z".toList) (by decide)⟩

/-- C10: the text before the first `"__"` anywhere in the input — even
one inside a `{...}` focus block or inside the target — is parsed as the
area: its failure aborts the whole parse with the same error, and on
success the parse's `area` field is exactly its result.  In particular
`"{a__b}c=d"`, whose only `"__"` sits inside the braces, fails with the
`UnknownBreakpoint` error instead of yielding `Focus("a__b")`. -/
theorem c10_area_before_first_uu :
    (∀ (spell : RStr) (i : Nat), findUU spell = some i →
       (∀ e, SpellArea.from_str (spell.take i) = .error e →
          Spell.from_str spell = .err e) ∧
       (∀ s, Spell.from_str spell = .ok s →
          ∃ a, SpellArea.from_str (spell.take i) = .ok a ∧ s.area = some a)) ∧
    Spell.from_str ("{a__b}c=d".toList) = .err "invalid breakpoint for area" := by
  refine ⟨?_, by decide⟩
  intro spell i hu
  constructor
  · intro e he
    exact from_str_area_err spell i e hu he
  · intro s hs
    cases ha : SpellArea.from_str (spell.take i) with
    | error e => rw [from_str_area_err spell i e hu ha] at hs; exact absurd hs (by simp)
    | ok a =>
      rw [from_str_area_ok spell i a hu ha] at hs
      simp only [Spell.afterArea] at hs
      split at hs
      · exact absurd hs (by simp)
      next c0 hhead =>
        split at hs
        · split at hs
          next i' hfi =>
            exact ⟨a, rfl, (afterFocus_ok_inv spell (some a) (i + 2) (some i') s hs).1⟩
          · exact absurd hs (by simp)
        · exact ⟨a, rfl, (afterFocus_ok_inv spell (some a) (i + 2) none s hs).1⟩

/-- Witness for `c10_area_before_first_uu` at `"{a__b}c=d"` (the `"__"`
inside the braces still drives area parsing). -/
theorem c10_area_before_first_uu_witness :
    Spell.from_str ("{a__b}c=d".toList) = .err "invalid breakpoint for area" :=
  (c10_area_before_first_uu.1 ("{a__b}c=d".toList) 2 (by decide)).1
    "invalid breakpoint for area" rfl

/-- When the classification condition holds, the target parses to the
`'_'`-split of its text (the defensive empty check never fires because a
`splitOnP` result is never the empty list). -/
theorem spellTarget_variables_of (t : RStr)
    (hb : (t.any (· = '_') && t.all fun c => rustIsAlphanumeric c || c = '_') = true) :
    SpellTarget.from_str t = .ok (.Variables (t.splitOn '_')) := by
  have hne : t.splitOn '_' ≠ [] := by
    unfold List.splitOn
    exact List.splitOnP_ne_nil _ t
  simp only [SpellTarget.from_str, hb, Bool.not_true, Bool.false_eq_true, if_false,
    List.isEmpty_iff]
  rw [if_neg hne]

/-- When the classification condition fails, the target is the verbatim
`CSSValue`. -/
theorem spellTarget_cssvalue_of (t : RStr)
    (hb : (t.any (· = '_') && t.all fun c => rustIsAlphanumeric c || c = '_') = false) :
    SpellTarget.from_str t = .ok (.CSSValue t) := by
  simp only [SpellTarget.from_str, hb, Bool.not_false, if_true]

/-- C3: `SpellTarget::from_str` classifies `t` as `Variables` iff `t`
contains at least one `'_'` and every character is alphanumeric or `'_'`
(relative to the embedded ASCII alphanumeric classifier); otherwise it
returns `CSSValue t` verbatim — in particular whenever `t` contains no
`'_'` at all. -/
theorem c3_target_classification (t : RStr) :
    ((∃ vs, SpellTarget.from_str t = .ok (.Variables vs)) ↔
       (t.any (· = '_') && t.all fun c => rustIsAlphanumeric c || c = '_') = true) ∧
    ((t.any (· = '_') && t.all fun c => rustIsAlphanumeric c || c = '_') = false →
       SpellTarget.from_str t = .ok (.CSSValue t)) ∧
    ((∀ c ∈ t, c ≠ '_') → SpellTarget.from_str t = .ok (.CSSValue t)) := by
  cases hb : (t.any (· = '_') && t.all fun c => rustIsAlphanumeric c || c = '_') with
  | false =>
    have hcss := spellTarget_cssvalue_of t hb
    refine ⟨⟨?_, fun h => absurd h (by simp [hb])⟩, fun _ => hcss, fun _ => hcss⟩
    rintro ⟨vs, hv⟩
    rw [hcss] at hv
    cases hv
  | true =>
    have hvar := spellTarget_variables_of t hb
    refine ⟨⟨fun _ => rfl, fun _ => ⟨t.splitOn '_', hvar⟩⟩, fun h => absurd h (by simp [hb]),
      fun hno => ?_⟩
    exfalso
    have hany : t.any (· = '_') = true := by
      have hb' := hb
      simp only [Bool.and_eq_true] at hb'
      exact hb'.1
    obtain ⟨c, hc, hdc⟩ := List.any_eq_true.1 hany
    exact hno c hc (of_decide_eq_true hdc)

/-- Witness for `c3_target_classification` at `t = "8px"` (no `'_'`). -/
theorem c3_target_classification_witness :
    SpellTarget.from_str ("8px".toList) = .ok (.CSSValue ("8px".toList)) :=
  (c3_target_classification ("8px".toList)).2.2 (by decide)

/-- Unfolding one step of a `'_'`-joined list of at least two parts. -/
theorem intercalate_single_cons_cons {α : Type} (x : α) (a b : List α) (r : List (List α)) :
    [x].intercalate (a :: b :: r) = a ++ x :: [x].intercalate (b :: r) := by
  simp [List.intercalate, List.intersperse_cons_cons]

/-- Every character of a `[x]`-joined list is the separator or comes
from one of the parts. -/
theorem mem_intercalate_single {α : Type} {x c : α} {vs : List (List α)}
    (h : c ∈ [x].intercalate vs) : c = x ∨ ∃ v ∈ vs, c ∈ v := by
  induction vs with
  | nil => simp [List.intercalate] at h
  | cons a r ih =>
    cases r with
    | nil =>
      refine .inr ⟨a, by simp, ?_⟩
      simpa [List.intercalate] using h
    | cons b r' =>
      rw [intercalate_single_cons_cons] at h
      rcases List.mem_append.1 h with h1 | h2
      · exact .inr ⟨a, by simp, h1⟩
      · rcases List.mem_cons.1 h2 with h3 | h4
        · exact .inl h3
        · rcases ih h4 with h5 | ⟨v, hv, hcv⟩
          · exact .inl h5
          · exact .inr ⟨v, by simp [hv], hcv⟩

/-- C9: a `Variables` classification splits the target on `'_'` keeping
empty tokens (leading/trailing/doubled underscores are preserved, as the
`"_a__b_"` instance shows); consequently, joining any ≥ 2 alphanumeric
tokens with `'_'` parses back to exactly that token list, in order. -/
theorem c9_variables_split :
    (∀ t : RStr, (t.any (· = '_') && t.all fun c => rustIsAlphanumeric c || c = '_') = true →
       SpellTarget.from_str t = .ok (.Variables (t.splitOn '_'))) ∧
    SpellTarget.from_str ("_a__b_".toList) =
      .ok (.Variables [[], "a".toList, [], "b".toList, []]) ∧
    (∀ vs : List RStr, 2 ≤ vs.length → (∀ v ∈ vs, ∀ c ∈ v, rustIsAlphanumeric c = true) →
       SpellTarget.from_str (['_'].intercalate vs) = .ok (.Variables vs)) := by
  refine ⟨fun t hb => spellTarget_variables_of t hb, by rfl, ?_⟩
  intro vs h2 halnum
  obtain ⟨a, b, r, rfl⟩ : ∃ a b r, vs = a :: b :: r := by
    match vs with
    | [] => simp at h2
    | [a] => simp at h2
    | a :: b :: r => exact ⟨a, b, r, rfl⟩
  have hmem : '_' ∈ ['_'].intercalate (a :: b :: r) := by
    rw [intercalate_single_cons_cons]
    exact List.mem_append.2 (.inr (List.mem_cons_self _ _))
  have hb : ((['_'].intercalate (a :: b :: r)).any (· = '_') &&
      (['_'].intercalate (a :: b :: r)).all fun c => rustIsAlphanumeric c || c = '_') = true := by
    simp only [Bool.and_eq_true, List.any_eq_true, List.all_eq_true]
    refine ⟨⟨'_', hmem, by simp⟩, ?_⟩
    intro c hc
    rcases mem_intercalate_single hc with rfl | ⟨v, hv, hcv⟩
    · simp
    · simp [halnum v hv c hcv]
  rw [spellTarget_variables_of _ hb]
  have hx : ∀ l ∈ a :: b :: r, '_' ∉ l := by
    intro l hl hmeml
    have := halnum l hl '_' hmeml
    simp [rustIsAlphanumeric, Char.isAlphanum] at this
  rw [List.splitOn_intercalate (a :: b :: r) '_' hx (by simp)]

/-- Witness for `c9_variables_split` at the token list `["a", "b"]`. -/
theorem c9_variables_split_witness :
    SpellTarget.from_str (['_'].intercalate ["a".toList, "b".toList]) =
      .ok (.Variables ["a".toList, "b".toList]) :=
  c9_variables_split.2.2 ["a".toList, "b".toList] (by decide) (by decide)

/-- On single-byte (ASCII) characters, byte offsets and char indices
coincide. -/
theorem byteOff_ascii (s : RStr) (h : ∀ c ∈ s, Char.utf8Size c = 1) (n : Nat)
    (hn : n ≤ s.length) : byteOff s n = n := by
  unfold byteOff
  have h1 : ∀ x ∈ (s.take n).map Char.utf8Size, x = 1 := by
    intro x hx
    obtain ⟨c, hc, rfl⟩ := List.mem_map.1 hx
    exact h c (List.mem_of_mem_take hc)
  rw [List.eq_replicate_of_mem h1, List.sum_replicate, List.length_map, List.length_take,
    smul_eq_mul, Nat.mul_one]
  omega

/-- C4 (amended: on inputs of single-byte characters): with no focus in
play, the scan from the focus/effect offset for the first `':'` or `'='`
behaves as specified — `':'` first comma-splits the text strictly before
it into the effect list and puts the component start one past the `':'`;
`'='` first, or no delimiter at all, produces no effect and leaves the
component start at the same offset. -/
theorem c4_effect_scan_ascii (spell : RStr) (fs : Nat)
    (hascii : ∀ c ∈ spell, Char.utf8Size c = 1) :
    (∀ j, List.findIdx? isEffectDelim (spell.drop fs) = some j →
       ((spell.drop fs)[j]? = some ':' →
          effectScan spell fs = .ok (some (((spell.drop fs).take j).splitOn ',')) ∧
          componentStart spell (some (((spell.drop fs).take j).splitOn ',')) none fs 0 fs =
            .ok (fs + j + 1)) ∧
       ((spell.drop fs)[j]? = some '=' →
          effectScan spell fs = .ok none ∧
          componentStart spell none none fs 0 fs = .ok fs)) ∧
    (List.findIdx? isEffectDelim (spell.drop fs) = none →
       effectScan spell fs = .ok none ∧ componentStart spell none none fs 0 fs = .ok fs) := by
  constructor
  · intro j hj
    have hjl : j < (spell.drop fs).length := by
      obtain ⟨hlt, -, -⟩ := List.findIdx?_eq_some_iff_getElem.1 hj
      exact hlt
    have hfs_le : fs ≤ spell.length := by
      have := List.length_drop fs spell
      omega
    have hb1 : byteOff spell fs = fs := byteOff_ascii spell hascii fs hfs_le
    have hdropascii : ∀ c ∈ spell.drop fs, Char.utf8Size c = 1 :=
      fun c hc => hascii c (List.mem_of_mem_drop hc)
    have hb2 : byteOff (spell.drop fs) j = j :=
      byteOff_ascii _ hdropascii j (Nat.le_of_lt hjl)
    have hget : spell[byteOff spell fs + byteOff (spell.drop fs) j]? = (spell.drop fs)[j]? := by
      rw [hb1, hb2, List.getElem?_drop]
    constructor
    · intro hcolon
      constructor
      · simp only [effectScan, hj, hget, hcolon]
        simp
      · have hgetc : (spell.drop fs)[j] = ':' := by
          rw [List.getElem?_eq_getElem hjl] at hcolon
          exact Option.some.inj hcolon
        have hcfind : List.findIdx? (· = ':') (spell.drop fs) = some j := by
          rw [List.findIdx?_eq_some_iff_getElem]
          obtain ⟨hlt, -, hprev⟩ := List.findIdx?_eq_some_iff_getElem.1 hj
          refine ⟨hjl, by simp [hgetc], ?_⟩
          intro k hk
          have hnd := hprev k hk
          simp only [isEffectDelim, Bool.or_eq_true, decide_eq_true_eq, not_or] at hnd
          simp only [decide_eq_true_eq]
          exact hnd.1
        simp only [componentStart, hcfind]
    · intro heq
      refine ⟨?_, rfl⟩
      simp only [effectScan, hj, hget, heq]
      simp
  · intro hn
    exact ⟨by simp only [effectScan, hn], rfl⟩

/-- Witness for `c4_effect_scan_ascii` at `"a:b=c"`, offset 0: the `':'`
is first, the effect list is `["a"]`, and the component starts at 2. -/
theorem c4_effect_scan_ascii_witness :
    effectScan ("a:b=c".toList) 0 = .ok (some [("a".toList)]) ∧
    componentStart ("a:b=c".toList) (some [("a".toList)]) none 0 0 0 = .ok 2 := by
  have h := ((c4_effect_scan_ascii ("a:b=c".toList) 0 (by decide)).1 1 (by decide)).1 (by decide)
  simpa using h

/-- C4 counterexample: on `"é:a=b"` (offset 0) the first `':'`/`'='` is
the `':'` at char index 1, yet the scan does not produce the effect list
`["é"]` the claim demands — it panics, because the byte offset of the
`':'` (2) is used as a char index and reads `'a'` instead. -/
theorem c4_effect_scan_nonascii_panics :
    List.findIdx? isEffectDelim ("é:a=b".toList) = some 1 ∧
    ("é:a=b".toList)[1]? = some ':' ∧
    effectScan ("é:a=b".toList) 0 = .panicked "impossible to match character" := by
  decide
